import Mathlib

/-!
Verification development for the NCBENCHMARK anomaly-detection engine
(`src/Program/logic.py`, GUI validation in `src/app/gui.py`).

The embedding models one spreadsheet cell as a `Raw` value abstracting the
outcome of Python's `float(...)` coercion and `pd.isna(...)` test:
`Raw.na` is an absent cell (NaN), `Raw.num q` is a cell whose text parses to
the number `q` (numerics are idealised as rationals), and `Raw.text s` is a
present cell whose text `s` fails numeric parse (raises `ValueError`).
Jurisdiction and category cells are `Option String` (`none` = NaN); pandas
equality on them is `optEq` below, under which NaN equals nothing, itself
included.
-/

namespace NCB

/-- Outcome-level abstraction of a raw spreadsheet cell. -/
inductive Raw where
  | na : Raw
  | num : ℚ → Raw
  | text : String → Raw
deriving DecidableEq, Repr

/-- Python `float(cell)` when the cell is present: `num q ↦ some q`,
`text s ↦ none` (ValueError). `na` cells are handled by the `isna` branches
of the code before any parse is attempted. -/
def Raw.toNum? : Raw → Option ℚ
  | Raw.num q => some q
  | _ => none

/-- Pandas elementwise `==` on possibly-NaN string cells: NaN compares
unequal to everything, including another NaN. -/
def optEq (a b : Option String) : Bool :=
  match a, b with
  | some x, some y => x == y
  | _, _ => false

/-- Pandas elementwise `<` between a year cell and the (numeric) current
year: only numeric cells compare, NaN compares false. -/
def Raw.ltNum (a : Raw) (y : ℚ) : Bool :=
  match a with
  | Raw.num q => decide (q < y)
  | _ => false

/-- One data row of the input table: the three index columns
(`a_fiscal_year`, `a_jurisdiction`, `a_service`) followed by the metric
cells, positionally aligned with `Table.metricCols`. -/
structure Row where
  year : Raw
  muni : Option String
  cat : Option String
  vals : List Raw
deriving DecidableEq, Repr

/-- The flattened single-header table (`df` after line 44 of logic.py):
metric codes and data rows. -/
structure Table where
  metricCols : List String
  rows : List Row
deriving DecidableEq, Repr

/-- Metric cell of a row at metric index `m` (`row[metric]`). Missing
positions read as NaN. -/
def Row.valAt (r : Row) (m : ℕ) : Raw := r.vals.getD m Raw.na

/-- Detection view `df_detection = df[df[category_col].notna()]`
(logic.py line 48): rows with a present category, paired with their
original 0-based index (pandas preserves the original index). -/
def detRows (tbl : Table) : List (ℕ × Row) :=
  tbl.rows.enum.filter (fun p => p.2.cat.isSome)

/-- Historical rows for one cell (logic.py lines 83-88): rows of the
detection view with year strictly below the current year, the same
jurisdiction and category under pandas equality, and — from the
`.dropna()` on the selected `[year, category, metric]` columns — a present
value for the metric under scrutiny. -/
def histPairs (det : List (ℕ × Row)) (curYear : ℚ)
    (muni cat : Option String) (m : ℕ) : List (ℕ × Row) :=
  det.filter (fun p =>
    p.2.year.ltNum curYear && optEq p.2.muni muni && optEq p.2.cat cat &&
      !(p.2.valAt m == Raw.na))

/-- The `hist_rows[metric].astype(float)` step guarded by
`except ValueError` (logic.py lines 89-92): if every value in the list
parses, the parsed values in order; if any single value fails to parse the
WHOLE baseline collapses to the empty array. -/
def astypeFloat (l : List Raw) : List ℚ :=
  if l.all (fun r => r.toNum?.isSome) then l.filterMap Raw.toNum? else []

/-- The numeric baseline `historical_data` for one cell. -/
def histData (det : List (ℕ × Row)) (curYear : ℚ)
    (muni cat : Option String) (m : ℕ) : List ℚ :=
  astypeFloat ((histPairs det curYear muni cat m).map (fun p => p.2.valAt m))

/-- Arithmetic mean, `numpy.mean` (division by zero yields 0 in `ℚ`,
matching no call site on the empty list that feeds a comparison). -/
def npMean (l : List ℚ) : ℚ := l.sum / l.length

/-- Population variance, the square of `numpy.std` (default `ddof=0`). The
code stores the standard deviation; over `ℚ` we carry its square and pass
to `ℝ` for the square root in `stdDev` below. -/
def npVar (l : List ℚ) : ℚ := (l.map (fun x => (x - npMean l) ^ 2)).sum / l.length

/-- Population standard deviation over the reals: `numpy.std`. -/
noncomputable def stdDev (l : List ℚ) : ℝ := Real.sqrt ((npVar l : ℚ) : ℝ)

/-- The z-score of logic.py line 109:
`(current_val - mean) / std_dev if std_dev != 0 else 0`. -/
noncomputable def zScore (v : ℚ) (l : List ℚ) : ℝ :=
  if stdDev l = 0 then 0 else (((v : ℝ)) - ((npMean l : ℚ) : ℝ)) / stdDev l

/-- Decidable form of the emission test `abs(z_score) > threshold`
(logic.py line 111). `std_dev == 0` forces the z-score to 0, so the test
degenerates to `0 > t`; otherwise `|v - mean| / √var > t` is equivalent to
`t < 0 ∨ (v - mean)² > t² · var`. Theorem `anomalyTest_iff` below proves
this `Bool` equal to the real-valued comparison. -/
def anomalyTest (v : ℚ) (l : List ℚ) (t : ℚ) : Bool :=
  if npVar l = 0 then decide (0 > t)
  else decide (t < 0 ∨ (v - npMean l) ^ 2 > t ^ 2 * npVar l)

/-- Anomaly event record (tuple appended at logic.py lines 112-113; the
stored mean/std/z are carried as `histMean`/`histVarP`, the z-score being
recoverable as `zScore value h`). -/
structure AnomalyEv where
  rowIdx : ℕ
  metricIdx : ℕ
  value : ℚ
  histMean : ℚ
  histVarP : ℚ
  year : Raw
  muni : Option String
  cat : Option String
  metric : String
deriving DecidableEq, Repr

/-- Missing-data event record (tuple appended at logic.py line 101). -/
structure MissingEv where
  rowIdx : ℕ
  metricIdx : ℕ
  year : Raw
  muni : Option String
  cat : Option String
  metric : String
deriving DecidableEq, Repr

/-- Non-numeric event record (tuple appended at logic.py line 77). -/
structure NonNumEv where
  rowIdx : ℕ
  metricIdx : ℕ
  value : String
  year : Raw
  muni : Option String
  cat : Option String
  metric : String
deriving DecidableEq, Repr

/-- The possible outcome of classifying one (metric, row) cell. -/
inductive CellEv where
  | anom : AnomalyEv → CellEv
  | miss : MissingEv → CellEv
  | nonnum : NonNumEv → CellEv
deriving DecidableEq, Repr

/-- Classification of a single (metric index, detection row) cell: the body
of the detection loop, logic.py lines 57-113. Returns the event the cell
appends, if any. -/
def cellEval (det : List (ℕ × Row)) (tbl : Table) (threshold targetYear : ℚ)
    (m : ℕ) (p : ℕ × Row) : Option CellEv :=
  match p.2.year.toNum? with
  | none => none
  | some cy =>
    if cy ≠ targetYear then none
    else
      match p.2.valAt m with
      | Raw.text s =>
        some (CellEv.nonnum ⟨p.1, m, s, p.2.year, p.2.muni, p.2.cat,
          tbl.metricCols.getD m ""⟩)
      | val =>
        let hd := histData det cy p.2.muni p.2.cat m
        if val = Raw.na then
          if hd ≠ [] then
            some (CellEv.miss ⟨p.1, m, p.2.year, p.2.muni, p.2.cat,
              tbl.metricCols.getD m ""⟩)
          else none
        else
          match val.toNum? with
          | none => none
          | some v =>
            if hd.length < 2 then none
            else if anomalyTest v hd threshold then
              some (CellEv.anom ⟨p.1, m, v, npMean hd, npVar hd, p.2.year,
                p.2.muni, p.2.cat, tbl.metricCols.getD m ""⟩)
            else none

/-- Selector for anomaly outcomes. -/
def anomOf : Option CellEv → Option AnomalyEv
  | some (CellEv.anom e) => some e
  | _ => none

/-- Selector for missing-data outcomes. -/
def missOf : Option CellEv → Option MissingEv
  | some (CellEv.miss e) => some e
  | _ => none

/-- Selector for non-numeric outcomes. -/
def nonnumOf : Option CellEv → Option NonNumEv
  | some (CellEv.nonnum e) => some e
  | _ => none

/-- The `anomalies` list accumulated by the detection loop: metric-major
iteration order (outer loop over metric columns, inner loop over detection
rows). -/
def classifyAnomalies (tbl : Table) (threshold targetYear : ℚ) : List AnomalyEv :=
  (List.range tbl.metricCols.length).flatMap (fun m =>
    (detRows tbl).filterMap (fun p =>
      anomOf (cellEval (detRows tbl) tbl threshold targetYear m p)))

/-- The `missing_data` list accumulated by the detection loop. -/
def classifyMissing (tbl : Table) (threshold targetYear : ℚ) : List MissingEv :=
  (List.range tbl.metricCols.length).flatMap (fun m =>
    (detRows tbl).filterMap (fun p =>
      missOf (cellEval (detRows tbl) tbl threshold targetYear m p)))

/-- The `non_numeric` list accumulated by the detection loop. -/
def classifyNonNumeric (tbl : Table) (threshold targetYear : ℚ) : List NonNumEv :=
  (List.range tbl.metricCols.length).flatMap (fun m =>
    (detRows tbl).filterMap (fun p =>
      nonnumOf (cellEval (detRows tbl) tbl threshold targetYear m p)))

/-! ### Pivot transform (`transform_data`, logic.py lines 339-367)

`transform_data` melts the detection view into one long record per
(row, metric) pair and then calls
`pivot_table(index=[Municipality, Category, Metric], columns='Year',
values='Value', aggfunc='first')`.  The pandas semantics embedded here:
the four key columns are group-by keys, so records with a NaN key are
dropped; `aggfunc='first'` returns the first non-NaN value of each group
in input order; groups whose values are all NaN are dropped
(`dropna(how="all")` on the aggregated frame), and year columns with no
surviving group are dropped (`dropna(how="all", axis=1)`).  Hence a row
exists for a triple iff some record of that triple has a present value,
a column exists for a year iff some surviving record carries it, and a
cell holds the first present value for its (triple, year) in input
order.  pandas additionally sorts rows and columns; no claim concerns
that ordering, so the embedding exposes the row and column sets as
deduplicated lists. -/

/-- One record of the melted (long) frame built at logic.py lines 344-351:
`[municipality, category, metric, year, value]`. -/
structure Obs where
  muni : Option String
  cat : Option String
  metric : String
  year : Raw
  val : Raw
deriving DecidableEq, Repr

/-- The long frame: detection rows in order (outer loop), metric columns in
order (inner loop). -/
def longObs (tbl : Table) : List Obs :=
  (detRows tbl).flatMap (fun p =>
    (List.range tbl.metricCols.length).map (fun m =>
      ⟨p.2.muni, p.2.cat, tbl.metricCols.getD m "", p.2.year, p.2.valAt m⟩))

/-- Group-by keys must be non-NaN (pandas drops records with a NaN key). -/
def obsKeyOk (o : Obs) : Bool :=
  o.muni.isSome && o.cat.isSome && !decide (o.year = Raw.na)

/-- Records that survive into the aggregated pivot: valid keys and a
present value. -/
def keptObs (tbl : Table) : List Obs :=
  (longObs tbl).filter (fun o => obsKeyOk o && !decide (o.val = Raw.na))

/-- The pivoted cell for a key triple and a year column: the first present
value in input order (`aggfunc='first'`), NaN when the group is empty or
all-NaN. -/
def pivotCell (tbl : Table) (muni cat metric : String) (year : Raw) : Raw :=
  match (longObs tbl).find? (fun o =>
      obsKeyOk o && decide (o.muni = some muni) && decide (o.cat = some cat) &&
        decide (o.metric = metric) && decide (o.year = year) &&
        !decide (o.val = Raw.na)) with
  | some o => o.val
  | none => Raw.na

/-- The set of row triples of the pivoted table. -/
def pivotTriples (tbl : Table) : List (String × String × String) :=
  ((keptObs tbl).map (fun o => (o.muni.getD "", o.cat.getD "", o.metric))).dedup

/-- The set of year columns of the pivoted table. -/
def pivotYears (tbl : Table) : List Raw :=
  ((keptObs tbl).map (fun o => o.year)).dedup

/-! ### Entity keys and per-key dictionaries (logic.py lines 117-148) -/

/-- Python `str.strip()`: drop leading and trailing whitespace. -/
def pyStrip (s : String) : String :=
  ⟨((s.data.dropWhile Char.isWhitespace).reverse.dropWhile
    Char.isWhitespace).reverse⟩

/-- The join key component: `str(cell).strip()`.  `str` of a NaN cell is
the literal text `"nan"`. -/
def keyStr : Option String → String
  | some s => pyStrip s
  | none => "nan"

/-- Entity key triple. -/
abbrev EntityKey := String × String × String

/-- Entity key of an anomaly event. -/
def AnomalyEv.ekey (e : AnomalyEv) : EntityKey :=
  (keyStr e.muni, keyStr e.cat, e.metric)

/-- Entity key of a missing-data event. -/
def MissingEv.ekey (e : MissingEv) : EntityKey :=
  (keyStr e.muni, keyStr e.cat, e.metric)

/-- Entity key of a non-numeric event. -/
def NonNumEv.ekey (e : NonNumEv) : EntityKey :=
  (keyStr e.muni, keyStr e.cat, e.metric)

/-- Python `dict` assignment `d[k] = v`: overwrite in place when the key is
present, append otherwise. -/
def dictInsert {V : Type} (d : List (EntityKey × V)) (k : EntityKey) (v : V) :
    List (EntityKey × V) :=
  if d.any (fun q => decide (q.1 = k)) then
    d.map (fun q => if q.1 = k then (k, v) else q)
  else d ++ [(k, v)]

/-- Building one of the `anomaly_dict` / `missing_dict` / `non_numeric_dict`
maps: fold the event list into a dictionary keyed by entity key, so a later
event with the same key overwrites an earlier one. -/
def buildDict {V : Type} (key : V → EntityKey) (l : List V) :
    List (EntityKey × V) :=
  l.foldl (fun d e => dictInsert d (key e) e) []

/-- Dictionary lookup. -/
def dictLookup {V : Type} (d : List (EntityKey × V)) (k : EntityKey) :
    Option V :=
  (d.find? (fun q => decide (q.1 = k))).map (fun q => q.2)

/-! ### Events-summary aggregation (logic.py lines 284-318) -/

/-- The event kind column of the summary sheet. -/
inductive EvKind where
  | anomaly : EvKind
  | missing : EvKind
  | nonNumeric : EvKind
deriving DecidableEq, Repr

/-- One row of `summary_data`: the sort key is the municipality (Python
sorts by `x[0]`); the remaining fields identify the event. -/
structure SummaryRow where
  muni : Option String
  cat : Option String
  metric : String
  kind : EvKind
deriving DecidableEq, Repr

/-- `summary_data` before sorting: anomalies, then missing, then
non-numeric, each in flat-list order. -/
def summaryData (as : List AnomalyEv) (ms : List MissingEv)
    (ns : List NonNumEv) : List SummaryRow :=
  as.map (fun e => ⟨e.muni, e.cat, e.metric, EvKind.anomaly⟩) ++
    ms.map (fun e => ⟨e.muni, e.cat, e.metric, EvKind.missing⟩) ++
    ns.map (fun e => ⟨e.muni, e.cat, e.metric, EvKind.nonNumeric⟩)

/-- Ordinal (code-point, case-sensitive) comparison of municipality sort
keys, the order Python's `<` places on the strings; a NaN key is ordered
first so the relation is total (real runs carry strings). -/
def keyLe (a b : Option String) : Bool :=
  match a, b with
  | none, _ => true
  | some _, none => false
  | some x, some y => decide (x ≤ y)

/-- `summary_data.sort(key=lambda x: x[0])` (logic.py line 318): Python's
sort is stable and ascending on the key; any stable sort computes the same
list, embedded here as insertion sort. -/
def sortSummary (l : List SummaryRow) : List SummaryRow :=
  l.insertionSort (fun a b => keyLe a.muni b.muni = true)

/-! ### GUI configuration validation (gui.py lines 112-117) -/

/-- The validated configuration: `threshold = float(text)` and
`target_year = int(text)`. -/
structure Config where
  threshold : ℚ
  targetYear : Int
deriving DecidableEq, Repr

/-- `run_detection`'s validation: each text field is abstracted by the
outcome of its numeric parse (`none` = ValueError).  Parsing failure shows
the error box and aborts; any parsed values — whatever their sign — are
accepted and the detection run is started. -/
def parseConfig (threshold : Option ℚ) (targetYear : Option Int) :
    Option Config :=
  match threshold, targetYear with
  | some t, some y => some ⟨t, y⟩
  | _, _ => none

/-! ### Spec-side definition for comparison

The specification describes the baseline as the individually
numeric-parseable historical values.  This definition follows the spec's
words (not the source) and exists only to be compared against the
source-derived `histData`. -/

/-- Baseline as the spec describes it: drop unparseable historical values
individually, keep the rest. -/
def specParsedBaseline (det : List (ℕ × Row)) (curYear : ℚ)
    (muni cat : Option String) (m : ℕ) : List ℚ :=
  ((histPairs det curYear muni cat m).map (fun p => p.2.valAt m)).filterMap
    Raw.toNum?

/-! ### Concrete tables used by witnesses and counterexamples -/

/-- Row with numeric year, present jurisdiction and category. -/
def mkRow (y : ℚ) (j c : String) (vs : List Raw) : Row :=
  ⟨Raw.num y, some j, some c, vs⟩

/-- Single-metric table with history 10, 20, 30 (years 2020-2022) and a
chosen value at the target year 2024. -/
def tblStd (cur : Raw) : Table :=
  ⟨["m"], [mkRow 2020 "J" "C" [Raw.num 10], mkRow 2021 "J" "C" [Raw.num 20],
    mkRow 2022 "J" "C" [Raw.num 30], mkRow 2024 "J" "C" [cur]]⟩

/-- History 10, 20 and one unparseable historical value, current value 40. -/
def tblBadHist : Table :=
  ⟨["m"], [mkRow 2020 "J" "C" [Raw.num 10], mkRow 2021 "J" "C" [Raw.num 20],
    mkRow 2022 "J" "C" [Raw.text "abc"], mkRow 2024 "J" "C" [Raw.num 40]]⟩

/-- One parseable and one unparseable historical value, absent current
value. -/
def tblMissBad : Table :=
  ⟨["m"], [mkRow 2020 "J" "C" [Raw.num 10], mkRow 2021 "J" "C" [Raw.text "xy"],
    mkRow 2024 "J" "C" [Raw.na]]⟩

/-- Constant history 10, 10, 10 and current value 10. -/
def tblConst : Table :=
  ⟨["m"], [mkRow 2020 "J" "C" [Raw.num 10], mkRow 2021 "J" "C" [Raw.num 10],
    mkRow 2022 "J" "C" [Raw.num 10], mkRow 2024 "J" "C" [Raw.num 10]]⟩

/-- Two-point history for the threshold counterexample. -/
def tblTwo : Table :=
  ⟨["m"], [mkRow 2020 "J" "C" [Raw.num 10], mkRow 2021 "J" "C" [Raw.num 20],
    mkRow 2024 "J" "C" [Raw.num 10]]⟩

/-- Two metrics; two rows share jurisdiction, category and year, the first
carrying no value for metric `m` and the second carrying 5; metric `m2` is
entirely absent. -/
def tblDupPivot : Table :=
  ⟨["m", "m2"], [mkRow 2020 "J" "C" [Raw.na, Raw.na],
    mkRow 2020 "J" "C" [Raw.num 5, Raw.na]]⟩

/-- A single row whose year text does not parse, value present. -/
def tblTextYear : Table :=
  ⟨["m"], [⟨Raw.text "abc", some "J", some "C", [Raw.num 5]⟩]⟩

/-- A non-numeric value at the target year on top of one historical point. -/
def tblNonNum : Table :=
  ⟨["m"], [mkRow 2020 "J" "C" [Raw.num 10], mkRow 2024 "J" "C" [Raw.text "x"]]⟩

/-- Two target-year rows with the same entity key and distinct non-numeric
values. -/
def tblDupRows : Table :=
  ⟨["m"], [mkRow 2024 "J" "C" [Raw.text "x"], mkRow 2024 "J" "C" [Raw.text "y"]]⟩

/-- Characterization of the anomaly outcome of one cell. -/
theorem cellEval_anom_iff {det : List (ℕ × Row)} {tbl : Table}
    {t ty : ℚ} {m : ℕ} {p : ℕ × Row} {e : AnomalyEv} :
    cellEval det tbl t ty m p = some (CellEv.anom e) ↔
      ∃ v : ℚ, p.2.year.toNum? = some ty ∧ p.2.valAt m = Raw.num v ∧
        2 ≤ (histData det ty p.2.muni p.2.cat m).length ∧
        anomalyTest v (histData det ty p.2.muni p.2.cat m) t = true ∧
        e = ⟨p.1, m, v, npMean (histData det ty p.2.muni p.2.cat m),
          npVar (histData det ty p.2.muni p.2.cat m), p.2.year, p.2.muni,
          p.2.cat, tbl.metricCols.getD m ""⟩ := by
  cases hy : p.2.year.toNum? with
  | none => simp [cellEval, hy]
  | some cy =>
    by_cases hcy : cy = ty
    · subst hcy
      cases hv : p.2.valAt m with
      | na =>
        by_cases hh : histData det cy p.2.muni p.2.cat m = [] <;>
          simp [cellEval, hy, hv, hh]
      | num v =>
        by_cases hlen : (histData det cy p.2.muni p.2.cat m).length < 2
        · simp only [cellEval, hy, hv]
          simp [Raw.toNum?, hlen]
        · by_cases htest : anomalyTest v (histData det cy p.2.muni p.2.cat m) t = true
          · simp only [cellEval, hy, hv]
            simp [Raw.toNum?, hlen, htest, Nat.le_of_not_lt hlen]
            exact eq_comm
          · simp only [cellEval, hy, hv]
            simp [Raw.toNum?, hlen, htest]
      | text s => simp [cellEval, hy, hv]
    · simp [cellEval, hy, hcy]

/-- Characterization of the missing-data outcome of one cell. -/
theorem cellEval_miss_iff {det : List (ℕ × Row)} {tbl : Table}
    {t ty : ℚ} {m : ℕ} {p : ℕ × Row} {e : MissingEv} :
    cellEval det tbl t ty m p = some (CellEv.miss e) ↔
      p.2.year.toNum? = some ty ∧ p.2.valAt m = Raw.na ∧
        histData det ty p.2.muni p.2.cat m ≠ [] ∧
        e = ⟨p.1, m, p.2.year, p.2.muni, p.2.cat, tbl.metricCols.getD m ""⟩ := by
  cases hy : p.2.year.toNum? with
  | none => simp [cellEval, hy]
  | some cy =>
    by_cases hcy : cy = ty
    · subst hcy
      cases hv : p.2.valAt m with
      | na =>
        by_cases hh : histData det cy p.2.muni p.2.cat m = []
        · simp [cellEval, hy, hv, hh]
        · simp [cellEval, hy, hv, hh]
          exact eq_comm
      | num v =>
        by_cases hlen : (histData det cy p.2.muni p.2.cat m).length < 2 <;>
          by_cases htest : anomalyTest v (histData det cy p.2.muni p.2.cat m) t = true <;>
          · simp only [cellEval, hy, hv]
            simp [Raw.toNum?, hlen, htest]
      | text s => simp [cellEval, hy, hv]
    · simp [cellEval, hy, hcy]

/-- Characterization of the non-numeric outcome of one cell. -/
theorem cellEval_nonnum_iff {det : List (ℕ × Row)} {tbl : Table}
    {t ty : ℚ} {m : ℕ} {p : ℕ × Row} {e : NonNumEv} :
    cellEval det tbl t ty m p = some (CellEv.nonnum e) ↔
      ∃ s : String, p.2.year.toNum? = some ty ∧ p.2.valAt m = Raw.text s ∧
        e = ⟨p.1, m, s, p.2.year, p.2.muni, p.2.cat,
          tbl.metricCols.getD m ""⟩ := by
  cases hy : p.2.year.toNum? with
  | none => simp [cellEval, hy]
  | some cy =>
    by_cases hcy : cy = ty
    · subst hcy
      cases hv : p.2.valAt m with
      | na =>
        by_cases hh : histData det cy p.2.muni p.2.cat m = [] <;>
          simp [cellEval, hy, hv, hh]
      | num v =>
        by_cases hlen : (histData det cy p.2.muni p.2.cat m).length < 2 <;>
          by_cases htest : anomalyTest v (histData det cy p.2.muni p.2.cat m) t = true <;>
          · simp only [cellEval, hy, hv]
            simp [Raw.toNum?, hlen, htest]
      | text s =>
        simp [cellEval, hy, hv]
        exact eq_comm
    · simp [cellEval, hy, hcy]
/-- Inversion for `anomOf`. -/
theorem anomOf_eq_some {o : Option CellEv} {e : AnomalyEv} :
    anomOf o = some e ↔ o = some (CellEv.anom e) := by
  cases o with
  | none => simp [anomOf]
  | some c => cases c <;> simp [anomOf]

/-- Inversion for `missOf`. -/
theorem missOf_eq_some {o : Option CellEv} {e : MissingEv} :
    missOf o = some e ↔ o = some (CellEv.miss e) := by
  cases o with
  | none => simp [missOf]
  | some c => cases c <;> simp [missOf]

/-- Inversion for `nonnumOf`. -/
theorem nonnumOf_eq_some {o : Option CellEv} {e : NonNumEv} :
    nonnumOf o = some e ↔ o = some (CellEv.nonnum e) := by
  cases o with
  | none => simp [nonnumOf]
  | some c => cases c <;> simp [nonnumOf]

/-- Membership in the anomalies list comes from exactly the cells whose
evaluation is an anomaly. -/
theorem mem_classifyAnomalies {tbl : Table} {t ty : ℚ} {e : AnomalyEv} :
    e ∈ classifyAnomalies tbl t ty ↔
      ∃ m, m < tbl.metricCols.length ∧ ∃ p ∈ detRows tbl,
        cellEval (detRows tbl) tbl t ty m p = some (CellEv.anom e) := by
  simp [classifyAnomalies, List.mem_flatMap, List.mem_filterMap, List.mem_range,
    anomOf_eq_some]

/-- Membership in the missing-data list comes from exactly the cells whose
evaluation is a missing-data event. -/
theorem mem_classifyMissing {tbl : Table} {t ty : ℚ} {e : MissingEv} :
    e ∈ classifyMissing tbl t ty ↔
      ∃ m, m < tbl.metricCols.length ∧ ∃ p ∈ detRows tbl,
        cellEval (detRows tbl) tbl t ty m p = some (CellEv.miss e) := by
  simp [classifyMissing, List.mem_flatMap, List.mem_filterMap, List.mem_range,
    missOf_eq_some]

/-- Membership in the non-numeric list comes from exactly the cells whose
evaluation is a non-numeric event. -/
theorem mem_classifyNonNumeric {tbl : Table} {t ty : ℚ} {e : NonNumEv} :
    e ∈ classifyNonNumeric tbl t ty ↔
      ∃ m, m < tbl.metricCols.length ∧ ∃ p ∈ detRows tbl,
        cellEval (detRows tbl) tbl t ty m p = some (CellEv.nonnum e) := by
  simp [classifyNonNumeric, List.mem_flatMap, List.mem_filterMap, List.mem_range,
    nonnumOf_eq_some]

/-- Original row indices in the detection view are strictly increasing. -/
theorem detRows_pairwise_fst (tbl : Table) :
    List.Pairwise (fun a b => a.1 < b.1) (detRows tbl) := by
  have h1 : List.Pairwise (fun a b : ℕ × Row => a.1 < b.1) tbl.rows.enum := by
    rw [← List.pairwise_map (f := Prod.fst)]
    rw [List.enum_map_fst]
    exact List.pairwise_lt_range _
  exact h1.sublist (List.filter_sublist _)

/-- In a list whose first components are strictly increasing, an element is
determined by its first component. -/
theorem fst_inj_of_pairwise {α : Type} {l : List (ℕ × α)}
    (hpw : List.Pairwise (fun a b => a.1 < b.1) l) {p q : ℕ × α}
    (hp : p ∈ l) (hq : q ∈ l) (h : p.1 = q.1) : p = q := by
  induction l with
  | nil => cases hp
  | cons a l ih =>
    rcases List.pairwise_cons.mp hpw with ⟨ha, hl⟩
    rcases List.mem_cons.mp hp with hp1 | hp1 <;>
      rcases List.mem_cons.mp hq with hq1 | hq1
    · rw [hp1, hq1]
    · exfalso
      subst hp1
      exact absurd h (Nat.ne_of_lt (ha q hq1))
    · exfalso
      subst hq1
      exact absurd h.symm (Nat.ne_of_lt (ha p hp1))
    · exact ih hl hp1 hq1

/-- A detection-view entry is determined by its original row index. -/
theorem detRows_fst_inj {tbl : Table} {p q : ℕ × Row}
    (hp : p ∈ detRows tbl) (hq : q ∈ detRows tbl) (h : p.1 = q.1) : p = q :=
  fst_inj_of_pairwise (detRows_pairwise_fst tbl) hp hq h

/-- Population variance is nonnegative. -/
theorem npVar_nonneg (l : List ℚ) : 0 ≤ npVar l := by
  unfold npVar
  apply div_nonneg
  · apply List.sum_nonneg
    intro x hx
    rcases List.mem_map.mp hx with ⟨y, _, rfl⟩
    positivity
  · exact Nat.cast_nonneg _

/-- The standard deviation vanishes exactly when the variance does. -/
theorem stdDev_eq_zero_iff (l : List ℚ) : stdDev l = 0 ↔ npVar l = 0 := by
  unfold stdDev
  rw [Real.sqrt_eq_zero (by exact_mod_cast npVar_nonneg l)]
  exact_mod_cast Iff.rfl

/-- The decidable emission test agrees with the real-valued comparison
`abs(z_score) > threshold` of logic.py line 111. -/
theorem anomalyTest_iff (v : ℚ) (l : List ℚ) (t : ℚ) :
    anomalyTest v l t = true ↔ |zScore v l| > (t : ℝ) := by
  by_cases hvar : npVar l = 0
  · have hs : stdDev l = 0 := (stdDev_eq_zero_iff l).mpr hvar
    unfold anomalyTest zScore
    simp [hvar, hs]
  · have hvpos : 0 < npVar l := lt_of_le_of_ne (npVar_nonneg l) (Ne.symm hvar)
    have hspos : 0 < stdDev l := by
      unfold stdDev
      exact Real.sqrt_pos.mpr (by exact_mod_cast hvpos)
    have hs : stdDev l ≠ 0 := ne_of_gt hspos
    have hsq : stdDev l ^ 2 = ((npVar l : ℚ) : ℝ) := by
      unfold stdDev
      exact Real.sq_sqrt (by exact_mod_cast npVar_nonneg l)
    have habs : |((v : ℝ)) - ((npMean l : ℚ) : ℝ)| ^ 2 = (((v - npMean l) ^ 2 : ℚ) : ℝ) := by
      rw [sq_abs]
      push_cast
      ring
    unfold anomalyTest zScore
    rw [if_neg hvar, if_neg hs, decide_eq_true_iff]
    rw [abs_div, abs_of_pos hspos]
    constructor
    · rintro (ht | hgt)
      · calc (t : ℝ) < 0 := by exact_mod_cast ht
          _ ≤ _ := div_nonneg (abs_nonneg _) (le_of_lt hspos)
      · by_cases ht : t < 0
        · calc (t : ℝ) < 0 := by exact_mod_cast ht
            _ ≤ _ := div_nonneg (abs_nonneg _) (le_of_lt hspos)
        · have ht0 : (0 : ℝ) ≤ (t : ℝ) := by exact_mod_cast not_lt.mp ht
          rw [gt_iff_lt, lt_div_iff₀ hspos]
          apply lt_of_pow_lt_pow_left₀ 2 (abs_nonneg _)
          rw [mul_pow, hsq, habs]
          calc ((t : ℝ)) ^ 2 * ((npVar l : ℚ) : ℝ)
              = (((t ^ 2 * npVar l : ℚ)) : ℝ) := by push_cast; ring
            _ < (((v - npMean l) ^ 2 : ℚ) : ℝ) := by exact_mod_cast hgt
    · intro h
      by_cases ht : t < 0
      · exact Or.inl ht
      · right
        have ht0 : (0 : ℝ) ≤ (t : ℝ) := by exact_mod_cast not_lt.mp ht
        rw [gt_iff_lt, lt_div_iff₀ hspos] at h
        have h2 : ((t : ℝ) * stdDev l) ^ 2 < |((v : ℝ)) - ((npMean l : ℚ) : ℝ)| ^ 2 :=
          pow_lt_pow_left₀ h (mul_nonneg ht0 (le_of_lt hspos)) (by norm_num)
        rw [mul_pow, hsq, habs] at h2
        have h3 : (((t ^ 2 * npVar l : ℚ)) : ℝ) < (((v - npMean l) ^ 2 : ℚ) : ℝ) := by
          calc (((t ^ 2 * npVar l : ℚ)) : ℝ) = ((t : ℝ)) ^ 2 * ((npVar l : ℚ) : ℝ) := by
                push_cast; ring
            _ < _ := h2
        exact_mod_cast h3

/-- The anomalies list contains an event for the cell (row `i`, metric `m`)
exactly when that cell's evaluation is an anomaly. -/
theorem exists_anom_cell_iff {tbl : Table} {t ty : ℚ} {i : ℕ} {r : Row} {m : ℕ}
    (hdet : (i, r) ∈ detRows tbl) (hm : m < tbl.metricCols.length) :
    (∃ e ∈ classifyAnomalies tbl t ty, e.rowIdx = i ∧ e.metricIdx = m) ↔
      (∃ e, cellEval (detRows tbl) tbl t ty m (i, r) = some (CellEv.anom e)) := by
  constructor
  · rintro ⟨e, he, hri, hmi⟩
    rcases mem_classifyAnomalies.mp he with ⟨m', hm', p', hp', hc⟩
    rcases cellEval_anom_iff.mp hc with ⟨v, hy, hv, hlen, htest, hee⟩
    have h1 : e.rowIdx = p'.1 := by rw [hee]
    have h2 : e.metricIdx = m' := by rw [hee]
    have hp'eq : p' = (i, r) := detRows_fst_inj hp' hdet (by rw [← h1, hri])
    rw [hp'eq, ← h2, hmi] at hc
    exact ⟨e, hc⟩
  · rintro ⟨e, hc⟩
    rcases cellEval_anom_iff.mp hc with ⟨v, hy, hv, hlen, htest, hee⟩
    refine ⟨e, mem_classifyAnomalies.mpr ⟨m, hm, (i, r), hdet, hc⟩, ?_, ?_⟩
    · rw [hee]
    · rw [hee]

/-- The missing-data list contains an event for the cell (row `i`, metric
`m`) exactly when that cell's evaluation is a missing-data event. -/
theorem exists_miss_cell_iff {tbl : Table} {t ty : ℚ} {i : ℕ} {r : Row} {m : ℕ}
    (hdet : (i, r) ∈ detRows tbl) (hm : m < tbl.metricCols.length) :
    (∃ e ∈ classifyMissing tbl t ty, e.rowIdx = i ∧ e.metricIdx = m) ↔
      (∃ e, cellEval (detRows tbl) tbl t ty m (i, r) = some (CellEv.miss e)) := by
  constructor
  · rintro ⟨e, he, hri, hmi⟩
    rcases mem_classifyMissing.mp he with ⟨m', hm', p', hp', hc⟩
    rcases cellEval_miss_iff.mp hc with ⟨hy, hv, hne, hee⟩
    have h1 : e.rowIdx = p'.1 := by rw [hee]
    have h2 : e.metricIdx = m' := by rw [hee]
    have hp'eq : p' = (i, r) := detRows_fst_inj hp' hdet (by rw [← h1, hri])
    rw [hp'eq, ← h2, hmi] at hc
    exact ⟨e, hc⟩
  · rintro ⟨e, hc⟩
    rcases cellEval_miss_iff.mp hc with ⟨hy, hv, hne, hee⟩
    refine ⟨e, mem_classifyMissing.mpr ⟨m, hm, (i, r), hdet, hc⟩, ?_, ?_⟩
    · rw [hee]
    · rw [hee]

/-- The non-numeric list contains an event for the cell (row `i`, metric
`m`) exactly when that cell's evaluation is a non-numeric event. -/
theorem exists_nonnum_cell_iff {tbl : Table} {t ty : ℚ} {i : ℕ} {r : Row}
    {m : ℕ} (hdet : (i, r) ∈ detRows tbl) (hm : m < tbl.metricCols.length) :
    (∃ e ∈ classifyNonNumeric tbl t ty, e.rowIdx = i ∧ e.metricIdx = m) ↔
      (∃ e, cellEval (detRows tbl) tbl t ty m (i, r) = some (CellEv.nonnum e)) := by
  constructor
  · rintro ⟨e, he, hri, hmi⟩
    rcases mem_classifyNonNumeric.mp he with ⟨m', hm', p', hp', hc⟩
    rcases cellEval_nonnum_iff.mp hc with ⟨s, hy, hv, hee⟩
    have h1 : e.rowIdx = p'.1 := by rw [hee]
    have h2 : e.metricIdx = m' := by rw [hee]
    have hp'eq : p' = (i, r) := detRows_fst_inj hp' hdet (by rw [← h1, hri])
    rw [hp'eq, ← h2, hmi] at hc
    exact ⟨e, hc⟩
  · rintro ⟨e, hc⟩
    rcases cellEval_nonnum_iff.mp hc with ⟨s, hy, hv, hee⟩
    refine ⟨e, mem_classifyNonNumeric.mpr ⟨m, hm, (i, r), hdet, hc⟩, ?_, ?_⟩
    · rw [hee]
    · rw [hee]

/-- `astype(float)` succeeds on a non-empty list exactly when every entry
parses. -/
theorem astypeFloat_ne_nil_iff {l : List Raw} :
    astypeFloat l ≠ [] ↔ l ≠ [] ∧ ∀ r ∈ l, (Raw.toNum? r).isSome := by
  unfold astypeFloat
  by_cases hall : l.all (fun r => r.toNum?.isSome) = true
  · rw [if_pos hall]
    rw [List.all_eq_true] at hall
    constructor
    · intro hne
      refine ⟨?_, fun r hr => hall r hr⟩
      rintro rfl
      simp at hne
    · rintro ⟨hne, _⟩
      cases l with
      | nil => exact absurd rfl hne
      | cons a tl =>
        have ha := hall a (List.mem_cons_self a tl)
        rcases Option.isSome_iff_exists.mp ha with ⟨q, hq⟩
        simp [List.filterMap_cons, hq]
  · rw [if_neg hall]
    rw [List.all_eq_true] at hall
    push_neg at hall
    simp only [ne_eq, not_true_eq_false, false_iff, not_and]
    intro _
    push_neg
    rcases hall with ⟨r, hr, hs⟩
    exact ⟨r, hr, by simpa using hs⟩

/-- Membership in the historical-row selection. -/
theorem mem_histPairs {det : List (ℕ × Row)} {cy : ℚ}
    {muni cat : Option String} {m : ℕ} {q : ℕ × Row} :
    q ∈ histPairs det cy muni cat m ↔
      q ∈ det ∧ q.2.year.ltNum cy = true ∧ optEq q.2.muni muni = true ∧
        optEq q.2.cat cat = true ∧ q.2.valAt m ≠ Raw.na := by
  unfold histPairs
  rw [List.mem_filter]
  simp only [Bool.and_eq_true, bne_iff_ne, ne_eq, Bool.not_eq_eq_eq_not,
    Bool.not_true, beq_eq_false_iff_ne]
  tauto

/-- C2 (amended): the baseline computation is all-or-nothing.  When every
present historical value for a cell parses, the parsed values are used in
order; when any single present historical value fails to parse, the entire
baseline for that cell collapses to the empty list (the run itself does
not fail).  Absent historical cells are dropped individually beforehand by
the `.dropna()` in `histPairs`. -/
theorem histData_all_or_nothing (det : List (ℕ × Row)) (cy : ℚ)
    (muni cat : Option String) (m : ℕ) :
    ((∀ x ∈ (histPairs det cy muni cat m).map (fun p => p.2.valAt m),
        (Raw.toNum? x).isSome) →
      histData det cy muni cat m = specParsedBaseline det cy muni cat m) ∧
    ((∃ x ∈ (histPairs det cy muni cat m).map (fun p => p.2.valAt m),
        Raw.toNum? x = none) →
      histData det cy muni cat m = []) := by
  constructor
  · intro h
    unfold histData astypeFloat specParsedBaseline
    rw [if_pos (List.all_eq_true.mpr h)]
  · rintro ⟨x, hx, hnone⟩
    unfold histData astypeFloat
    rw [if_neg]
    intro hall
    have hs := List.all_eq_true.mp hall x hx
    rw [hnone] at hs
    simp at hs

/-- Witness for `histData_all_or_nothing` at two concrete tables: a fully
parseable history is used whole, one unparseable value empties it. -/
theorem histData_all_or_nothing_witness :
    histData (detRows (tblStd (Raw.num 40))) 2024 (some "J") (some "C") 0 =
      specParsedBaseline (detRows (tblStd (Raw.num 40))) 2024 (some "J")
        (some "C") 0 ∧
    histData (detRows tblBadHist) 2024 (some "J") (some "C") 0 = [] :=
  ⟨(histData_all_or_nothing (detRows (tblStd (Raw.num 40))) 2024 (some "J")
      (some "C") 0).1 (by decide),
   (histData_all_or_nothing (detRows tblBadHist) 2024 (some "J")
      (some "C") 0).2 ⟨Raw.text "abc", by decide, by decide⟩⟩

/-- C2 counterexample: in `tblBadHist` the historical values are
10, 20 and the unparseable text `"abc"`.  The claim says the unparseable
value is dropped individually and the baseline is the remaining `[10, 20]`;
the code's baseline is in fact empty. -/
theorem histData_drop_individual_counterexample :
    specParsedBaseline (detRows tblBadHist) 2024 (some "J") (some "C") 0 =
      [10, 20] ∧
    histData (detRows tblBadHist) 2024 (some "J") (some "C") 0 = [] ∧
    ([] : List ℚ) ≠ [10, 20] := by
  refine ⟨by decide, by decide, by decide⟩

/-- C1 (amended): for a target-year cell with a parseable value, when the
baseline the code computes (`histData`, which is empty whenever any present
historical value fails to parse and otherwise holds all parsed values) has
at least 2 points, an Anomaly event for that cell is emitted iff the
absolute z-score against that baseline strictly exceeds the threshold;
with fewer than 2 baseline points no event of any kind is emitted for the
cell. -/
theorem classify_anomaly_iff_abs_zscore_gt_threshold {tbl : Table}
    {t ty : ℚ} {i : ℕ} {r : Row} {m : ℕ} {v : ℚ}
    (hdet : (i, r) ∈ detRows tbl) (hm : m < tbl.metricCols.length)
    (hy : r.year.toNum? = some ty) (hv : r.valAt m = Raw.num v) :
    (2 ≤ (histData (detRows tbl) ty r.muni r.cat m).length →
      ((∃ e ∈ classifyAnomalies tbl t ty, e.rowIdx = i ∧ e.metricIdx = m) ↔
        |zScore v (histData (detRows tbl) ty r.muni r.cat m)| > (t : ℝ))) ∧
    ((histData (detRows tbl) ty r.muni r.cat m).length < 2 →
      (¬∃ e ∈ classifyAnomalies tbl t ty, e.rowIdx = i ∧ e.metricIdx = m) ∧
      (¬∃ e ∈ classifyMissing tbl t ty, e.rowIdx = i ∧ e.metricIdx = m) ∧
      (¬∃ e ∈ classifyNonNumeric tbl t ty, e.rowIdx = i ∧ e.metricIdx = m)) := by
  constructor
  · intro hlen
    rw [exists_anom_cell_iff hdet hm]
    constructor
    · rintro ⟨e, hc⟩
      rcases cellEval_anom_iff.mp hc with ⟨v', hy', hv', hlen', htest, hee⟩
      have hvv : v' = v := by
        have := hv'.symm.trans hv
        injection this
      rw [hvv] at htest
      exact (anomalyTest_iff v (histData (detRows tbl) ty r.muni r.cat m) t).mp
        htest
    · intro hz
      have htest := (anomalyTest_iff v
        (histData (detRows tbl) ty r.muni r.cat m) t).mpr hz
      exact ⟨_, cellEval_anom_iff.mpr ⟨v, hy, hv, hlen, htest, rfl⟩⟩
  · intro hlt
    refine ⟨?_, ?_, ?_⟩
    · rw [exists_anom_cell_iff hdet hm]
      rintro ⟨e, hc⟩
      rcases cellEval_anom_iff.mp hc with ⟨v', hy', hv', hlen', _, _⟩
      have hlen2 : 2 ≤ (histData (detRows tbl) ty r.muni r.cat m).length :=
        hlen'
      omega
    · rw [exists_miss_cell_iff hdet hm]
      rintro ⟨e, hc⟩
      rcases cellEval_miss_iff.mp hc with ⟨hy', hv', _, _⟩
      rw [hv] at hv'
      cases hv'
    · rw [exists_nonnum_cell_iff hdet hm]
      rintro ⟨e, hc⟩
      rcases cellEval_nonnum_iff.mp hc with ⟨s, hy', hv', _⟩
      rw [hv] at hv'
      cases hv'

/-- Witness for `classify_anomaly_iff_abs_zscore_gt_threshold` on the
spec's concrete table: history 10, 20, 30 at target year 2024, current
value 40, threshold 1. -/
theorem classify_anomaly_iff_abs_zscore_gt_threshold_witness :
    ((3, mkRow 2024 "J" "C" [Raw.num 40]) ∈ detRows (tblStd (Raw.num 40))) ∧
    (2 ≤ (histData (detRows (tblStd (Raw.num 40))) 2024
      (mkRow 2024 "J" "C" [Raw.num 40]).muni
      (mkRow 2024 "J" "C" [Raw.num 40]).cat 0).length →
      ((∃ e ∈ classifyAnomalies (tblStd (Raw.num 40)) 1 2024,
          e.rowIdx = 3 ∧ e.metricIdx = 0) ↔
        |zScore 40 (histData (detRows (tblStd (Raw.num 40))) 2024
          (mkRow 2024 "J" "C" [Raw.num 40]).muni
          (mkRow 2024 "J" "C" [Raw.num 40]).cat 0)| > ((1 : ℚ) : ℝ))) :=
  ⟨by decide,
   (classify_anomaly_iff_abs_zscore_gt_threshold (by decide) (by decide)
      (by decide) (by decide)).1⟩

/-- C1 counterexample: in `tblBadHist` the parseable historical values are
`[10, 20]` — at least two points, and the current value 40 has absolute
z-score 5 > 1 against them — yet the code emits no anomaly, because the
unparseable `"abc"` empties the whole baseline. -/
theorem classify_anomaly_unparseable_history_counterexample :
    specParsedBaseline (detRows tblBadHist) 2024 (some "J") (some "C") 0 =
      [10, 20] ∧
    2 ≤ ([10, 20] : List ℚ).length ∧
    |zScore 40 [10, 20]| > ((1 : ℚ) : ℝ) ∧
    classifyAnomalies tblBadHist 1 2024 = [] := by
  refine ⟨by decide, by decide, ?_, by decide⟩
  refine (anomalyTest_iff 40 [10, 20] 1).mp ?_
  norm_num [anomalyTest, npVar, npMean]

/-- C3 (amended): an absent target-year cell yields a Missing event iff at
least one present historical point exists for the cell AND every present
historical value parses numerically (one unparseable value empties the
baseline and suppresses the event); an absent cell never yields an anomaly
or non-numeric event. -/
theorem missing_iff_history_present_and_parseable {tbl : Table}
    {t ty : ℚ} {i : ℕ} {r : Row} {m : ℕ}
    (hdet : (i, r) ∈ detRows tbl) (hm : m < tbl.metricCols.length)
    (hy : r.year.toNum? = some ty) (hv : r.valAt m = Raw.na) :
    ((∃ e ∈ classifyMissing tbl t ty, e.rowIdx = i ∧ e.metricIdx = m) ↔
      ((histPairs (detRows tbl) ty r.muni r.cat m).map (fun p => p.2.valAt m)
          ≠ [] ∧
        ∀ x ∈ (histPairs (detRows tbl) ty r.muni r.cat m).map
          (fun p => p.2.valAt m), (Raw.toNum? x).isSome)) ∧
    (¬∃ e ∈ classifyAnomalies tbl t ty, e.rowIdx = i ∧ e.metricIdx = m) ∧
    (¬∃ e ∈ classifyNonNumeric tbl t ty, e.rowIdx = i ∧ e.metricIdx = m) := by
  refine ⟨?_, ?_, ?_⟩
  · rw [exists_miss_cell_iff hdet hm]
    constructor
    · rintro ⟨e, hc⟩
      rcases cellEval_miss_iff.mp hc with ⟨hy', hv', hne, _⟩
      exact astypeFloat_ne_nil_iff.mp hne
    · intro h
      have hne : histData (detRows tbl) ty r.muni r.cat m ≠ [] :=
        astypeFloat_ne_nil_iff.mpr h
      exact ⟨_, cellEval_miss_iff.mpr ⟨hy, hv, hne, rfl⟩⟩
  · rw [exists_anom_cell_iff hdet hm]
    rintro ⟨e, hc⟩
    rcases cellEval_anom_iff.mp hc with ⟨v', hy', hv', _, _, _⟩
    rw [hv] at hv'
    cases hv'
  · rw [exists_nonnum_cell_iff hdet hm]
    rintro ⟨e, hc⟩
    rcases cellEval_nonnum_iff.mp hc with ⟨s, hy', hv', _⟩
    rw [hv] at hv'
    cases hv'

/-- Witness for `missing_iff_history_present_and_parseable`: an absent
value over the fully parseable history 10, 20, 30 is reported Missing. -/
theorem missing_iff_history_present_and_parseable_witness :
    ((3, mkRow 2024 "J" "C" [Raw.na]) ∈ detRows (tblStd Raw.na)) ∧
    ((∃ e ∈ classifyMissing (tblStd Raw.na) 1 2024,
        e.rowIdx = 3 ∧ e.metricIdx = 0) ↔
      ((histPairs (detRows (tblStd Raw.na)) 2024
          (mkRow 2024 "J" "C" [Raw.na]).muni
          (mkRow 2024 "J" "C" [Raw.na]).cat 0).map (fun p => p.2.valAt 0)
          ≠ [] ∧
        ∀ x ∈ (histPairs (detRows (tblStd Raw.na)) 2024
          (mkRow 2024 "J" "C" [Raw.na]).muni
          (mkRow 2024 "J" "C" [Raw.na]).cat 0).map (fun p => p.2.valAt 0),
          (Raw.toNum? x).isSome)) :=
  ⟨by decide,
   (missing_iff_history_present_and_parseable (by decide) (by decide)
      (by decide) (by decide)).1⟩

/-- C3 counterexample: in `tblMissBad` a valid (present, parseable)
historical point 10 exists for the absent 2024 cell, yet no Missing event
is emitted, because the unparseable `"xy"` at 2021 empties the baseline. -/
theorem missing_valid_point_counterexample :
    specParsedBaseline (detRows tblMissBad) 2024 (some "J") (some "C") 0 =
      [10] ∧
    ([10] : List ℚ) ≠ [] ∧
    (mkRow 2024 "J" "C" [Raw.na]).valAt 0 = Raw.na ∧
    classifyMissing tblMissBad 1 2024 = [] := by
  refine ⟨by decide, by decide, by decide, by decide⟩

/-- C4 (confirmed): a target-year cell with a present numeric value whose
baseline has at least 2 points and zero population variance is never
flagged as an anomaly, for any positive threshold and any current value
(the z-score is forced to 0). -/
theorem zero_variance_never_anomaly {tbl : Table} {t ty : ℚ} {i : ℕ}
    {r : Row} {m : ℕ} {v : ℚ}
    (hdet : (i, r) ∈ detRows tbl) (hm : m < tbl.metricCols.length)
    (hy : r.year.toNum? = some ty) (hv : r.valAt m = Raw.num v)
    (hlen : 2 ≤ (histData (detRows tbl) ty r.muni r.cat m).length)
    (hvar : npVar (histData (detRows tbl) ty r.muni r.cat m) = 0)
    (ht : 0 < t) :
    ¬∃ e ∈ classifyAnomalies tbl t ty, e.rowIdx = i ∧ e.metricIdx = m := by
  rw [exists_anom_cell_iff hdet hm]
  rintro ⟨e, hc⟩
  rcases cellEval_anom_iff.mp hc with ⟨v', hy', hv', hlen', htest, _⟩
  unfold anomalyTest at htest
  rw [if_pos hvar] at htest
  rw [decide_eq_true_iff] at htest
  exact absurd htest (not_lt.mpr (le_of_lt ht))

/-- Witness for `zero_variance_never_anomaly`: the constant history
10, 10, 10 with current value 10 and threshold 1 is not flagged. -/
theorem zero_variance_never_anomaly_witness :
    npVar (histData (detRows tblConst) 2024
      (mkRow 2024 "J" "C" [Raw.num 10]).muni
      (mkRow 2024 "J" "C" [Raw.num 10]).cat 0) = 0 ∧
    (0 : ℚ) < 1 ∧
    ¬∃ e ∈ classifyAnomalies tblConst 1 2024,
      e.rowIdx = 3 ∧ e.metricIdx = 0 := by
  have hh : histData (detRows tblConst) 2024
      (mkRow 2024 "J" "C" [Raw.num 10]).muni
      (mkRow 2024 "J" "C" [Raw.num 10]).cat 0 = [10, 10, 10] := by decide
  have hvar : npVar (histData (detRows tblConst) 2024
      (mkRow 2024 "J" "C" [Raw.num 10]).muni
      (mkRow 2024 "J" "C" [Raw.num 10]).cat 0) = 0 := by
    rw [hh]
    norm_num [npVar, npMean]
  refine ⟨hvar, by norm_num, ?_⟩
  exact @zero_variance_never_anomaly tblConst 1 2024 3
    (mkRow 2024 "J" "C" [Raw.num 10]) 0 10 (by decide) (by decide)
    (by decide) (by decide) (by rw [hh]; decide) hvar (by norm_num)

/-- C6 (confirmed): every row selected into the historical series for a
cell keyed by (`muni`, `cat`) at target year `ty` belongs to the detection
view, has the cell's jurisdiction and category under pandas equality, and
has a numeric year strictly below the target year — never the target year
or a later one, whatever the order of the input rows (the statement
quantifies over every table). -/
theorem history_same_entity_earlier_years (tbl : Table) (ty : ℚ)
    (muni cat : Option String) (m : ℕ) (q : ℕ × Row)
    (hq : q ∈ histPairs (detRows tbl) ty muni cat m) :
    q ∈ detRows tbl ∧ optEq q.2.muni muni = true ∧
      optEq q.2.cat cat = true ∧
      ∃ y : ℚ, q.2.year = Raw.num y ∧ y < ty := by
  rcases mem_histPairs.mp hq with ⟨hmem, hlt, hmu, hca, _⟩
  refine ⟨hmem, hmu, hca, ?_⟩
  cases hy : q.2.year with
  | na => rw [hy] at hlt; cases hlt
  | num y =>
    rw [hy] at hlt
    unfold Raw.ltNum at hlt
    exact ⟨y, rfl, by simpa using hlt⟩
  | text s => rw [hy] at hlt; cases hlt

/-- Witness for `history_same_entity_earlier_years` at a concrete history
row of `tblStd`. -/
theorem history_same_entity_earlier_years_witness :
    ((0, mkRow 2020 "J" "C" [Raw.num 10]) ∈
      histPairs (detRows (tblStd (Raw.num 40))) 2024 (some "J") (some "C")
        0) ∧
    ((0, mkRow 2020 "J" "C" [Raw.num 10]) ∈ detRows (tblStd (Raw.num 40)) ∧
      optEq (mkRow 2020 "J" "C" [Raw.num 10]).muni (some "J") = true ∧
      optEq (mkRow 2020 "J" "C" [Raw.num 10]).cat (some "C") = true ∧
      ∃ y : ℚ, (mkRow 2020 "J" "C" [Raw.num 10]).year = Raw.num y ∧
        y < 2024) :=
  ⟨by decide,
   history_same_entity_earlier_years (tblStd (Raw.num 40)) 2024 (some "J")
     (some "C") 0 (0, mkRow 2020 "J" "C" [Raw.num 10]) (by decide)⟩

/-- C8 (amended): the GUI validation aborts the run exactly when the
threshold text fails float parse or the target-year text fails int parse;
every successfully parsed pair — including thresholds that are zero or
negative — is accepted and the detection run is performed. -/
theorem parseConfig_none_iff_parse_failure :
    (∀ (t : Option ℚ) (y : Option Int),
      parseConfig t y = none ↔ t = none ∨ y = none) ∧
    (∀ (q : ℚ) (y : Int), parseConfig (some q) (some y) = some ⟨q, y⟩) := by
  constructor
  · intro t y
    cases t <;> cases y <;> simp [parseConfig]
  · intro q y
    rfl

/-- C8 counterexample: the threshold −1 is ≤ 0, yet the configuration is
accepted (no configuration error) and the detection run proceeds and even
emits an anomaly on `tblTwo` — so an invalid-per-the-claim configuration
is not aborted. -/
theorem threshold_nonpositive_accepted_counterexample :
    ((-1 : ℚ) ≤ 0) ∧
    parseConfig (some (-1 : ℚ)) (some 2024) = some ⟨-1, 2024⟩ ∧
    (∃ e, e ∈ classifyAnomalies tblTwo (-1) 2024) := by
  have hh : histData (detRows tblTwo) 2024 (some "J") (some "C") 0 =
      [10, 20] := by decide
  refine ⟨by norm_num, rfl, ?_⟩
  have hc : cellEval (detRows tblTwo) tblTwo (-1) 2024 0
      (2, mkRow 2024 "J" "C" [Raw.num 10]) = some (CellEv.anom
        ⟨2, 0, 10,
          npMean (histData (detRows tblTwo) 2024 (some "J") (some "C") 0),
          npVar (histData (detRows tblTwo) 2024 (some "J") (some "C") 0),
          Raw.num 2024, some "J", some "C", "m"⟩) := by
    refine cellEval_anom_iff.mpr ⟨10, by decide, by decide, ?_, ?_, rfl⟩
    · rw [show histData (detRows tblTwo) 2024
        (2, mkRow 2024 "J" "C" [Raw.num 10]).2.muni
        (2, mkRow 2024 "J" "C" [Raw.num 10]).2.cat 0 = [10, 20] from hh]
      decide
    · rw [show histData (detRows tblTwo) 2024
        (2, mkRow 2024 "J" "C" [Raw.num 10]).2.muni
        (2, mkRow 2024 "J" "C" [Raw.num 10]).2.cat 0 = [10, 20] from hh]
      norm_num [anomalyTest, npVar, npMean]
  exact ⟨_, mem_classifyAnomalies.mpr
    ⟨0, by decide, (2, mkRow 2024 "J" "C" [Raw.num 10]), by decide, hc⟩⟩

/-- Looking up a key other than the updated one ignores the in-place
update of a Python dict assignment. -/
theorem dictLookup_map_update {V : Type} {k q : EntityKey} (v : V)
    (hqk : q ≠ k) (d : List (EntityKey × V)) :
    dictLookup (d.map (fun e => if e.1 = k then (k, v) else e)) q =
      dictLookup d q := by
  induction d with
  | nil => rfl
  | cons b tl ih =>
    rcases b with ⟨bk, bv⟩
    unfold dictLookup at ih ⊢
    by_cases hbk : bk = k
    · subst hbk
      have h1 : ¬(bk = q) := fun h => hqk h.symm
      rw [List.map_cons, if_pos rfl]
      simp only [List.find?_cons, decide_eq_false h1]
      exact ih
    · rw [List.map_cons, if_neg hbk]
      by_cases hbq : bk = q
      · simp only [List.find?_cons, decide_eq_true hbq]
      · simp only [List.find?_cons, decide_eq_false hbq]
        exact ih

/-- If the key is present, the in-place update wins the lookup. -/
theorem dictLookup_map_update_hit {V : Type} {k : EntityKey} (v : V)
    (d : List (EntityKey × V)) (hd : d.any (fun e => decide (e.1 = k)) = true) :
    dictLookup (d.map (fun e => if e.1 = k then (k, v) else e)) k =
      some v := by
  induction d with
  | nil => cases hd
  | cons b tl ih =>
    rcases b with ⟨bk, bv⟩
    unfold dictLookup at ih ⊢
    by_cases hbk : bk = k
    · subst hbk
      rw [List.map_cons, if_pos rfl]
      simp only [List.find?_cons, decide_eq_true (show bk = bk from rfl)]
      rfl
    · have htl : tl.any (fun e => decide (e.1 = k)) = true := by
        rcases List.any_eq_true.mp hd with ⟨e, he, hek⟩
        rcases List.mem_cons.mp he with rfl | he'
        · exact absurd (by simpa using hek) hbk
        · exact List.any_eq_true.mpr ⟨e, he', hek⟩
      rw [List.map_cons, if_neg hbk]
      simp only [List.find?_cons, decide_eq_false hbk]
      exact ih htl

/-- Python dict assignment followed by lookup: the assigned key now maps to
the new value, other keys are untouched. -/
theorem dictLookup_dictInsert {V : Type} (k : EntityKey) (v : V)
    (q : EntityKey) (d : List (EntityKey × V)) :
    dictLookup (dictInsert d k v) q =
      if q = k then some v else dictLookup d q := by
  unfold dictInsert
  by_cases hany : (d.any (fun e => decide (e.1 = k))) = true
  · rw [if_pos hany]
    by_cases hqk : q = k
    · rw [if_pos hqk, hqk]
      exact dictLookup_map_update_hit v d hany
    · rw [if_neg hqk]
      exact dictLookup_map_update v hqk d
  · rw [if_neg hany]
    by_cases hqk : q = k
    · rw [if_pos hqk, hqk]
      have hnone : d.find? (fun e => decide (e.1 = k)) = none := by
        rw [List.find?_eq_none]
        intro e he hek
        exact hany (List.any_eq_true.mpr ⟨e, he, hek⟩)
      unfold dictLookup
      rw [List.find?_append, hnone]
      simp only [Option.none_or, List.find?_cons,
        decide_eq_true (show k = k from rfl)]
      rfl
    · rw [if_neg hqk]
      unfold dictLookup
      rw [List.find?_append]
      have hlast : List.find? (fun e => decide (e.1 = q)) [(k, v)] = none := by
        simp only [List.find?_cons, List.find?_nil]
        rw [decide_eq_false (fun h => hqk h.symm)]
      rw [hlast]
      cases d.find? (fun e => decide (e.1 = q)) <;> rfl

/-- The dictionary built from an event list maps each entity key to the
LAST event of the list carrying that key: later events overwrite earlier
ones. -/
theorem dictLookup_buildDict {V : Type} (key : V → EntityKey)
    (l : List V) (k : EntityKey) :
    dictLookup (buildDict key l) k =
      (l.filter (fun e => decide (key e = k))).getLast? := by
  induction l using List.reverseRecOn with
  | nil => rfl
  | append_singleton l e ih =>
    have hfold : buildDict key (l ++ [e]) =
        dictInsert (buildDict key l) (key e) e := by
      unfold buildDict
      rw [List.foldl_append]
      rfl
    rw [hfold, dictLookup_dictInsert, List.filter_append]
    by_cases hk : key e = k
    · rw [if_pos hk.symm]
      rw [show List.filter (fun e => decide (key e = k)) [e] = [e] from by
        simp [List.filter_cons, hk]]
      rw [List.getLast?_concat]
    · rw [if_neg (fun h => hk h.symm)]
      rw [show List.filter (fun e => decide (key e = k)) [e] = [] from by
        simp [List.filter_cons, hk]]
      rw [List.append_nil]
      exact ih

/-- C10 (confirmed): each of the three per-entity-key dictionaries keeps
only the LAST event of its flat list for every key (later assignments
overwrite), while the flat lists keep one event per observation.  On
`tblDupRows` — two target-year rows with the same entity key — the flat
non-numeric list holds two distinct events with equal keys but the
dictionary holds a single entry, the later event, so the first event is
not represented in the map. -/
theorem dict_last_wins_flat_list_complete :
    (∀ (l : List AnomalyEv) (k : EntityKey),
      dictLookup (buildDict AnomalyEv.ekey l) k =
        (l.filter (fun e => decide (e.ekey = k))).getLast?) ∧
    (∀ (l : List MissingEv) (k : EntityKey),
      dictLookup (buildDict MissingEv.ekey l) k =
        (l.filter (fun e => decide (e.ekey = k))).getLast?) ∧
    (∀ (l : List NonNumEv) (k : EntityKey),
      dictLookup (buildDict NonNumEv.ekey l) k =
        (l.filter (fun e => decide (e.ekey = k))).getLast?) ∧
    classifyNonNumeric tblDupRows 1 2024 =
      [⟨0, 0, "x", Raw.num 2024, some "J", some "C", "m"⟩,
       ⟨1, 0, "y", Raw.num 2024, some "J", some "C", "m"⟩] ∧
    (⟨0, 0, "x", Raw.num 2024, some "J", some "C", "m"⟩ : NonNumEv).ekey =
      (⟨1, 0, "y", Raw.num 2024, some "J", some "C", "m"⟩ : NonNumEv).ekey ∧
    (buildDict NonNumEv.ekey (classifyNonNumeric tblDupRows 1 2024)).length
      = 1 ∧
    dictLookup (buildDict NonNumEv.ekey (classifyNonNumeric tblDupRows 1 2024))
        ("J", "C", "m") =
      some ⟨1, 0, "y", Raw.num 2024, some "J", some "C", "m"⟩ :=
  ⟨fun l k => dictLookup_buildDict AnomalyEv.ekey l k,
   fun l k => dictLookup_buildDict MissingEv.ekey l k,
   fun l k => dictLookup_buildDict NonNumEv.ekey l k,
   by decide, by decide, by decide, by decide⟩

/-- The municipality key order is total. -/
theorem keyLe_total (a b : Option String) :
    keyLe a b = true ∨ keyLe b a = true := by
  cases a with
  | none => exact Or.inl rfl
  | some x =>
    cases b with
    | none => exact Or.inr rfl
    | some y =>
      rcases le_total x y with h | h
      · exact Or.inl (by simp [keyLe, h])
      · exact Or.inr (by simp [keyLe, h])

/-- The municipality key order is transitive. -/
theorem keyLe_trans {a b c : Option String} (h1 : keyLe a b = true)
    (h2 : keyLe b c = true) : keyLe a c = true := by
  cases a with
  | none => rfl
  | some x =>
    cases b with
    | none => cases h1
    | some y =>
      cases c with
      | none => cases h2
      | some z =>
        simp only [keyLe, decide_eq_true_eq] at h1 h2 ⊢
        exact le_trans h1 h2

/-- The municipality key order is reflexive. -/
theorem keyLe_refl (a : Option String) : keyLe a a = true := by
  cases a with
  | none => rfl
  | some x => simp [keyLe]

/-- Filtering one municipality key commutes with an ordered insertion:
the inserted row lands in front of the rows with its own key. -/
theorem filter_orderedInsert_key (k : Option String) (a : SummaryRow)
    (l : List SummaryRow) :
    (l.orderedInsert (fun x y => keyLe x.muni y.muni = true) a).filter
        (fun x => decide (x.muni = k)) =
      if a.muni = k then
        a :: l.filter (fun x => decide (x.muni = k))
      else l.filter (fun x => decide (x.muni = k)) := by
  induction l with
  | nil =>
    by_cases hak : a.muni = k
    · simp [List.orderedInsert, List.filter_cons, hak]
    · simp [List.orderedInsert, List.filter_cons, hak]
  | cons b tl ih =>
    rw [List.orderedInsert]
    by_cases hr : keyLe a.muni b.muni = true
    · rw [if_pos hr]
      by_cases hak : a.muni = k <;> by_cases hbk : b.muni = k <;>
        simp [List.filter_cons, hak, hbk]
    · rw [if_neg hr]
      by_cases hak : a.muni = k
      · have hbk : ¬b.muni = k := by
          intro hbk
          exact hr (hbk.symm ▸ hak ▸ keyLe_refl a.muni)
        rw [List.filter_cons, List.filter_cons]
        rw [decide_eq_false hbk]
        simp only [Bool.false_eq_true, if_false]
        rw [ih]
        try simp [hak]
      · rw [List.filter_cons, List.filter_cons]
        by_cases hbk : b.muni = k
        · rw [decide_eq_true hbk]
          simp only [if_true]
          rw [ih]
          try simp [hak]
        · rw [decide_eq_false hbk]
          simp only [Bool.false_eq_true, if_false]
          rw [ih]
          try simp [hak]

/-- Stability of the summary sort, expressed per key: the subsequence of
rows with any fixed municipality key is unchanged by sorting. -/
theorem filter_sortSummary_key (k : Option String) (l : List SummaryRow) :
    (sortSummary l).filter (fun x => decide (x.muni = k)) =
      l.filter (fun x => decide (x.muni = k)) := by
  unfold sortSummary
  induction l with
  | nil => rfl
  | cons a tl ih =>
    rw [List.insertionSort, filter_orderedInsert_key, List.filter_cons]
    by_cases hak : a.muni = k
    · rw [if_pos hak, decide_eq_true hak]
      simp only [if_true]
      rw [ih]
    · rw [if_neg hak, decide_eq_false hak]
      simp only [Bool.false_eq_true, if_false]
      rw [ih]

/-- The summary sort produces a list sorted by the municipality key. -/
theorem sortSummary_sorted (l : List SummaryRow) :
    List.Sorted (fun x y : SummaryRow => keyLe x.muni y.muni = true)
      (sortSummary l) := by
  unfold sortSummary
  haveI : IsTotal SummaryRow
      (fun x y : SummaryRow => keyLe x.muni y.muni = true) :=
    ⟨fun x y => keyLe_total x.muni y.muni⟩
  haveI : IsTrans SummaryRow
      (fun x y : SummaryRow => keyLe x.muni y.muni = true) :=
    ⟨fun _ _ _ h1 h2 => keyLe_trans h1 h2⟩
  exact List.sorted_insertionSort _ _

/-- C9 (confirmed): the flat summary list is sorted ascending by the
municipality sort key — on present jurisdictions this is Lean's `String`
order, lexicographic on code points, i.e. a case-sensitive ordinal
comparison, matching Python's `<` on `str` — ties are kept in original
insertion order (the filtered subsequence at each key is untouched), and
the aggregation is a pure function, so two runs on the same input produce
the identical ordering. -/
theorem summary_sorted_stable_deterministic (as : List AnomalyEv)
    (ms : List MissingEv) (ns : List NonNumEv) :
    List.Sorted (fun x y : SummaryRow => keyLe x.muni y.muni = true)
      (sortSummary (summaryData as ms ns)) ∧
    (∀ k : Option String,
      (sortSummary (summaryData as ms ns)).filter
          (fun x => decide (x.muni = k)) =
        (summaryData as ms ns).filter (fun x => decide (x.muni = k))) ∧
    sortSummary (summaryData as ms ns) =
      sortSummary (summaryData as ms ns) :=
  ⟨sortSummary_sorted (summaryData as ms ns),
   fun k => filter_sortSummary_key k (summaryData as ms ns), rfl⟩

/-- A present option equals `some` of its default read. -/
theorem opt_eq_some_getD {o : Option String} (h : o.isSome = true) :
    o = some (o.getD "") := by
  cases o with
  | none => cases h
  | some s => rfl

/-- Unpacking the group-key validity test. -/
theorem obsKeyOk_parts {o : Obs} (h : obsKeyOk o = true) :
    o.muni.isSome = true ∧ o.cat.isSome = true ∧ o.year ≠ Raw.na := by
  unfold obsKeyOk at h
  simp only [Bool.and_eq_true, Bool.not_eq_eq_eq_not, Bool.not_true,
    decide_eq_false_iff_not] at h
  exact ⟨h.1.1, h.1.2, h.2⟩

/-- `find?` returns the element at the first position satisfying the
predicate. -/
theorem find?_eq_of_first {α : Type} (p : α → Bool) (l : List α) (i : ℕ)
    (o : α) (hi : l[i]? = some o) (ho : p o = true)
    (hb : ∀ j, j < i → ∀ o', l[j]? = some o' → p o' = false) :
    l.find? p = some o := by
  induction l generalizing i with
  | nil => simp at hi
  | cons a tl ih =>
    cases i with
    | zero =>
      rw [List.getElem?_cons_zero] at hi
      injection hi with hi
      subst hi
      exact List.find?_cons_of_pos _ ho
    | succ j =>
      have ha : p a = false := hb 0 (Nat.succ_pos j) a (by simp)
      rw [List.find?_cons_of_neg _ (by simp [ha])]
      refine ih j (by simpa using hi) ?_
      intro j' hj' o' ho'
      exact hb (j' + 1) (by omega) o' (by simpa using ho')

/-- Membership in the long frame. -/
theorem mem_longObs {tbl : Table} {o : Obs} :
    o ∈ longObs tbl ↔ ∃ p ∈ detRows tbl, ∃ m, m < tbl.metricCols.length ∧
      o = ⟨p.2.muni, p.2.cat, tbl.metricCols.getD m "", p.2.year,
        p.2.valAt m⟩ := by
  unfold longObs
  rw [List.mem_flatMap]
  constructor
  · rintro ⟨p, hp, ho⟩
    rw [List.mem_map] at ho
    rcases ho with ⟨m, hm, heq⟩
    exact ⟨p, hp, m, List.mem_range.mp hm, heq.symm⟩
  · rintro ⟨p, hp, m, hm, heq⟩
    exact ⟨p, hp, List.mem_map.mpr ⟨m, List.mem_range.mpr hm, heq.symm⟩⟩

/-- Every record of the long frame has a present category (the pivot is
built from the detection view). -/
theorem longObs_cat_isSome {tbl : Table} {o : Obs} (ho : o ∈ longObs tbl) :
    o.cat.isSome = true := by
  rcases mem_longObs.mp ho with ⟨p, hp, m, hm, heq⟩
  have hcat : p.2.cat.isSome = true := (List.mem_filter.mp hp).2
  rw [heq]
  exact hcat

/-- Membership in the pivoted row set. -/
theorem mem_pivotTriples {tbl : Table} {mu ca me : String} :
    (mu, ca, me) ∈ pivotTriples tbl ↔
      ∃ o ∈ longObs tbl, obsKeyOk o = true ∧ o.val ≠ Raw.na ∧
        o.muni = some mu ∧ o.cat = some ca ∧ o.metric = me := by
  unfold pivotTriples keptObs
  rw [List.mem_dedup, List.mem_map]
  constructor
  · rintro ⟨o, ho, heq⟩
    rw [List.mem_filter, Bool.and_eq_true] at ho
    rcases ho with ⟨hmem, hok, hval⟩
    have hval' : o.val ≠ Raw.na := by simpa using hval
    rcases obsKeyOk_parts hok with ⟨hmu, hca, _⟩
    rw [Prod.mk.injEq, Prod.mk.injEq] at heq
    rcases heq with ⟨h1, h2, h3⟩
    exact ⟨o, hmem, hok, hval', h1 ▸ opt_eq_some_getD hmu,
      h2 ▸ opt_eq_some_getD hca, h3⟩
  · rintro ⟨o, hmem, hok, hval, hmu, hca, hme⟩
    refine ⟨o, List.mem_filter.mpr ⟨hmem, ?_⟩, ?_⟩
    · rw [Bool.and_eq_true]
      exact ⟨hok, by simpa using hval⟩
    · rw [hmu, hca, hme]
      rfl

/-- Membership in the pivoted year-column set. -/
theorem mem_pivotYears {tbl : Table} {y : Raw} :
    y ∈ pivotYears tbl ↔
      ∃ o ∈ longObs tbl, obsKeyOk o = true ∧ o.val ≠ Raw.na ∧
        o.year = y := by
  unfold pivotYears keptObs
  rw [List.mem_dedup, List.mem_map]
  constructor
  · rintro ⟨o, ho, heq⟩
    rw [List.mem_filter, Bool.and_eq_true] at ho
    rcases ho with ⟨hmem, hok, hval⟩
    exact ⟨o, hmem, hok, by simpa using hval, heq⟩
  · rintro ⟨o, hmem, hok, hval, hy⟩
    refine ⟨o, List.mem_filter.mpr ⟨hmem, ?_⟩, hy⟩
    rw [Bool.and_eq_true]
    exact ⟨hok, by simpa using hval⟩

/-- C5 (amended): the pivoted table has exactly one row for every triple
that carries at least one PRESENT value somewhere in the detection set
(triples whose values are all absent get no row), one column for every
year that carries at least one present value, and the cell of a record's
triple and year holds the first PRESENT value in input order for that
(triple, year) — an absent first occurrence is skipped, not kept. -/
theorem pivot_table_characterization (tbl : Table) :
    (∀ mu ca me : String, (mu, ca, me) ∈ pivotTriples tbl ↔
      ∃ o ∈ longObs tbl, obsKeyOk o = true ∧ o.val ≠ Raw.na ∧
        o.muni = some mu ∧ o.cat = some ca ∧ o.metric = me) ∧
    (pivotTriples tbl).Nodup ∧
    (∀ y : Raw, y ∈ pivotYears tbl ↔
      ∃ o ∈ longObs tbl, obsKeyOk o = true ∧ o.val ≠ Raw.na ∧
        o.year = y) ∧
    (∀ (i : ℕ) (o : Obs), (longObs tbl)[i]? = some o →
      obsKeyOk o = true → o.val ≠ Raw.na →
      (∀ j, j < i → ∀ o', (longObs tbl)[j]? = some o' →
        ¬(obsKeyOk o' = true ∧ o'.muni = o.muni ∧ o'.cat = o.cat ∧
          o'.metric = o.metric ∧ o'.year = o.year ∧ o'.val ≠ Raw.na)) →
      pivotCell tbl (o.muni.getD "") (o.cat.getD "") o.metric o.year =
        o.val) := by
  refine ⟨fun mu ca me => mem_pivotTriples, List.nodup_dedup _,
    fun y => mem_pivotYears, ?_⟩
  intro i o hi hok hval hb
  rcases obsKeyOk_parts hok with ⟨hmu, hca, _⟩
  have hP : (fun o' : Obs =>
      obsKeyOk o' && decide (o'.muni = some (o.muni.getD "")) &&
        decide (o'.cat = some (o.cat.getD "")) &&
        decide (o'.metric = o.metric) && decide (o'.year = o.year) &&
        !decide (o'.val = Raw.na)) o = true := by
    simp only [Bool.and_eq_true, decide_eq_true_eq,
      Bool.not_eq_eq_eq_not, Bool.not_true, decide_eq_false_iff_not]
    exact ⟨⟨⟨⟨⟨hok, opt_eq_some_getD hmu⟩, opt_eq_some_getD hca⟩,
      by trivial⟩, by trivial⟩, hval⟩
  have hB : ∀ j, j < i → ∀ o', (longObs tbl)[j]? = some o' →
      (fun o' : Obs =>
        obsKeyOk o' && decide (o'.muni = some (o.muni.getD "")) &&
          decide (o'.cat = some (o.cat.getD "")) &&
          decide (o'.metric = o.metric) && decide (o'.year = o.year) &&
          !decide (o'.val = Raw.na)) o' = false := by
    intro j hj o' ho'
    by_contra hp
    rw [Bool.not_eq_false] at hp
    simp only [Bool.and_eq_true, decide_eq_true_eq,
      Bool.not_eq_eq_eq_not, Bool.not_true, decide_eq_false_iff_not] at hp
    rcases hp with ⟨⟨⟨⟨⟨hok', hmu'⟩, hca'⟩, hme'⟩, hy'⟩, hval'⟩
    refine hb j hj o' ho' ⟨hok', ?_, ?_, hme', hy', hval'⟩
    · rw [hmu', ← opt_eq_some_getD hmu]
    · rw [hca', ← opt_eq_some_getD hca]
  have hfind := find?_eq_of_first _ (longObs tbl) i o hi hP hB
  unfold pivotCell
  rw [hfind]

/-- Witness for `pivot_table_characterization`: the first record of
`tblStd` pivots to its own value. -/
theorem pivot_table_characterization_witness :
    ((longObs (tblStd (Raw.num 40)))[0]? =
      some ⟨some "J", some "C", "m", Raw.num 2020, Raw.num 10⟩) ∧
    pivotCell (tblStd (Raw.num 40)) "J" "C" "m" (Raw.num 2020) =
      Raw.num 10 :=
  ⟨by decide,
   (pivot_table_characterization (tblStd (Raw.num 40))).2.2.2 0
     ⟨some "J", some "C", "m", Raw.num 2020, Raw.num 10⟩ (by decide)
     (by decide) (by decide)
     (fun j hj o' ho' => absurd hj (by omega))⟩

/-- C5 counterexample: in `tblDupPivot` the first record for
(J, C, m, 2020) carries an absent value and a later record carries 5; the
pivoted cell holds 5, not the first-encountered value.  Moreover the
triple (J, C, m2) is observed in the detection set but — all its values
being absent — has no pivoted row. -/
theorem pivot_first_wins_counterexample :
    (longObs tblDupPivot)[0]? =
      some ⟨some "J", some "C", "m", Raw.num 2020, Raw.na⟩ ∧
    pivotCell tblDupPivot "J" "C" "m" (Raw.num 2020) = Raw.num 5 ∧
    Raw.num 5 ≠ Raw.na ∧
    (∃ o ∈ longObs tblDupPivot, o.metric = "m2" ∧ o.muni = some "J" ∧
      o.cat = some "C") ∧
    ("J", "C", "m2") ∉ pivotTriples tblDupPivot := by
  refine ⟨by decide, by decide, by decide, ?_, by decide⟩
  exact ⟨⟨some "J", some "C", "m2", Raw.num 2020, Raw.na⟩, by decide,
    by decide, by decide, by decide⟩

/-- C7 (amended): classification events arise only from detection rows
whose category is present and whose year parses to the target year (rows
with an empty category or an unparseable year are skipped silently); the
pivot is likewise built only from category-bearing rows — but a row whose
year fails numeric parse is NOT excluded from the pivoted table: any of
its present values makes its (unparseable) year a pivot column. -/
theorem events_only_valid_rows_pivot_keeps_text_years (tbl : Table)
    (t ty : ℚ) :
    (∀ e ∈ classifyAnomalies tbl t ty,
      e.year.toNum? = some ty ∧ e.cat.isSome = true) ∧
    (∀ e ∈ classifyMissing tbl t ty,
      e.year.toNum? = some ty ∧ e.cat.isSome = true) ∧
    (∀ e ∈ classifyNonNumeric tbl t ty,
      e.year.toNum? = some ty ∧ e.cat.isSome = true) ∧
    (∀ o ∈ longObs tbl, o.cat.isSome = true) ∧
    (∀ o ∈ longObs tbl, obsKeyOk o = true → o.val ≠ Raw.na →
      o.year ∈ pivotYears tbl) := by
  refine ⟨?_, ?_, ?_, fun o ho => longObs_cat_isSome ho, ?_⟩
  · intro e he
    rcases mem_classifyAnomalies.mp he with ⟨m, hm, p, hp, hc⟩
    rcases cellEval_anom_iff.mp hc with ⟨v, hy, _, _, _, hee⟩
    have hcat : p.2.cat.isSome = true := (List.mem_filter.mp hp).2
    rw [hee]
    exact ⟨hy, hcat⟩
  · intro e he
    rcases mem_classifyMissing.mp he with ⟨m, hm, p, hp, hc⟩
    rcases cellEval_miss_iff.mp hc with ⟨hy, _, _, hee⟩
    have hcat : p.2.cat.isSome = true := (List.mem_filter.mp hp).2
    rw [hee]
    exact ⟨hy, hcat⟩
  · intro e he
    rcases mem_classifyNonNumeric.mp he with ⟨m, hm, p, hp, hc⟩
    rcases cellEval_nonnum_iff.mp hc with ⟨s, hy, _, hee⟩
    have hcat : p.2.cat.isSome = true := (List.mem_filter.mp hp).2
    rw [hee]
    exact ⟨hy, hcat⟩
  · intro o ho hok hval
    exact mem_pivotYears.mpr ⟨o, ho, hok, hval, rfl⟩

/-- Witness for `events_only_valid_rows_pivot_keeps_text_years`: a
non-numeric event of `tblNonNum` carries the parsed target year and a
present category, and the text-year record of `tblTextYear` contributes a
pivot column. -/
theorem events_only_valid_rows_pivot_keeps_text_years_witness :
    ((⟨1, 0, "x", Raw.num 2024, some "J", some "C", "m"⟩ : NonNumEv) ∈
      classifyNonNumeric tblNonNum 1 2024) ∧
    ((Raw.num 2024).toNum? = some 2024 ∧ (some "C").isSome = true) ∧
    Raw.text "abc" ∈ pivotYears tblTextYear :=
  ⟨by decide,
   (events_only_valid_rows_pivot_keeps_text_years tblNonNum 1 2024).2.2.1
     ⟨1, 0, "x", Raw.num 2024, some "J", some "C", "m"⟩ (by decide),
   (events_only_valid_rows_pivot_keeps_text_years tblTextYear 1
       2024).2.2.2.2
     ⟨some "J", some "C", "m", Raw.text "abc", Raw.num 5⟩ (by decide)
     (by decide) (by decide)⟩

/-- C7 counterexample: the single row of `tblTextYear` has the unparseable
year text `"abc"`, yet its data appears in the pivoted table — the claim
that such rows are excluded from the pivot is false. -/
theorem pivot_includes_unparseable_year_counterexample :
    (Raw.text "abc").toNum? = none ∧
    (⟨some "J", some "C", "m", Raw.text "abc", Raw.num 5⟩ : Obs) ∈
      longObs tblTextYear ∧
    Raw.text "abc" ∈ pivotYears tblTextYear ∧
    ("J", "C", "m") ∈ pivotTriples tblTextYear := by
  refine ⟨rfl, by decide, by decide, by decide⟩

end NCB
